import Mathlib

/-!
Shallow embedding of the CHIP-8 emulator in src/main.rs and proofs about
its instruction semantics.

Modelling conventions:
* u8 and u16 quantities are Nat, with wraparound written explicitly
  (mod 256, mod 65536) at the operations where the source performs
  wrapping arithmetic.
* the 4096-byte memory, the 16 registers, the 16-entry stack, the 16 key
  flags and the 64 x 32 framebuffer of the source are fixed arrays; they
  are modelled as total functions from Nat, and every in-range index
  expression of the source is mirrored exactly.  The stack accesses that
  the source performs out of bounds (a Rust bounds panic on the 16-entry
  array, or a u8 underflow of the stack pointer) are modelled as Option
  and StepResult failures.
* the random byte drawn by the Cxkk instruction is passed to the cycle
  function as an explicit oracle argument.
-/

namespace Chip8

/-- Framebuffer: 64 x 32 grid of pixels, indexed (x, y) as in the source
field `framebuffer: [[bool; 32]; 64]`. -/
abbrev Fb := Nat → Nat → Bool

/-- Machine state, mirroring `struct ChipContext` of src/main.rs. -/
structure ChipContext where
  memory : Nat → Nat
  v : Nat → Nat
  dt : Nat
  st : Nat
  pc : Nat
  sp : Nat
  i : Nat
  stack : Nat → Nat
  framebuffer : Fb
  keyboard : Nat → Bool

/-- u8 wrapping subtraction, as `u8::wrapping_sub` on byte values. -/
def wsub (a b : Nat) : Nat := (a % 256 + 256 - b % 256) % 256

/-- Opcode 00E0 (CLS), `clean_screen`: every pixel of the framebuffer is
set to false. -/
def clean_screen (s : ChipContext) : ChipContext :=
  { s with framebuffer := fun _ _ => false }

/-- Opcode 00EE (RET), `return_sbr`: `sp -= 1; pc = stack[sp]`.  The
source does not guard the stack pointer: with `sp = 0` the u8 decrement
underflows and the subsequent index is out of bounds, and with
`sp - 1 >= 16` the index itself is out of bounds; both are Rust panics,
modelled as `none`. -/
def return_sbr (s : ChipContext) : Option ChipContext :=
  if s.sp = 0 then none
  else if 16 ≤ s.sp - 1 then none
  else some { s with sp := s.sp - 1, pc := s.stack (s.sp - 1) }

/-- Opcode 1nnn (JP addr), `jump`. -/
def jump (s : ChipContext) (nnn : Nat) : ChipContext :=
  { s with pc := nnn }

/-- Opcode 2nnn (CALL addr), `call_sbr`: `stack[sp] = pc; sp += 1;
pc = nnn`.  The write `stack[sp]` with `sp >= 16` is a Rust bounds
panic, modelled as `none`. -/
def call_sbr (s : ChipContext) (nnn : Nat) : Option ChipContext :=
  if 16 ≤ s.sp then none
  else some { s with stack := Function.update s.stack s.sp s.pc,
                     sp := s.sp + 1, pc := nnn }

/-- Opcode 3xkk (SE Vx, byte), `skip_if`. -/
def skip_if (s : ChipContext) (x kk : Nat) : ChipContext :=
  if s.v x = kk then { s with pc := (s.pc + 2) % 65536 } else s

/-- Opcode 4xkk (SNE Vx, byte), `skip_diff`. -/
def skip_diff (s : ChipContext) (x kk : Nat) : ChipContext :=
  if s.v x ≠ kk then { s with pc := (s.pc + 2) % 65536 } else s

/-- Opcode 5xy0 (SE Vx, Vy), `skip_equals`. -/
def skip_equals (s : ChipContext) (x y : Nat) : ChipContext :=
  if s.v x = s.v y then { s with pc := (s.pc + 2) % 65536 } else s

/-- Opcode 6xkk (LD Vx, byte), `load`. -/
def load (s : ChipContext) (x kk : Nat) : ChipContext :=
  { s with v := Function.update s.v x kk }

/-- Opcode 7xkk (ADD Vx, byte), `add`: the sum is formed in u16 and the
low byte is written back. -/
def add (s : ChipContext) (x kk : Nat) : ChipContext :=
  { s with v := Function.update s.v x ((s.v x + kk) % 256) }

/-- Opcode 8xy0 (LD Vx, Vy), `load_vx_vy`. -/
def load_vx_vy (s : ChipContext) (x y : Nat) : ChipContext :=
  { s with v := Function.update s.v x (s.v y) }

/-- Opcode 8xy1 (OR Vx, Vy), `or`. -/
def or (s : ChipContext) (x y : Nat) : ChipContext :=
  { s with v := Function.update s.v x (s.v x ||| s.v y) }

/-- Opcode 8xy2 (AND Vx, Vy), `and`. -/
def and (s : ChipContext) (x y : Nat) : ChipContext :=
  { s with v := Function.update s.v x (s.v x &&& s.v y) }

/-- Opcode 8xy3 (XOR Vx, Vy), `xor`. -/
def xor (s : ChipContext) (x y : Nat) : ChipContext :=
  { s with v := Function.update s.v x (s.v x ^^^ s.v y) }

/-- Opcode 8xy4 (ADD Vx, Vy), `add_vx_vy`: the source first stores the
low byte of the sum into `v[x]` and only then writes the carry into
`v[0xF]`, so for `x = 15` the carry overwrites the sum. -/
def add_vx_vy (s : ChipContext) (x y : Nat) : ChipContext :=
  let sum := s.v x + s.v y
  let v1 := Function.update s.v x (sum % 256)
  { s with v := Function.update v1 15 (if 255 < sum then 1 else 0) }

/-- Opcode 8xy5 (SUB Vx, Vy), `sub`: the source first writes the borrow
flag into `v[0xF]` and then reads `v[x]` and `v[y]` again for the
subtraction, so for `x = 15` or `y = 15` the flag write is visible to
the subtraction. -/
def sub (s : ChipContext) (x y : Nat) : ChipContext :=
  let v1 := Function.update s.v 15 (if s.v y < s.v x then 1 else 0)
  { s with v := Function.update v1 x (wsub (v1 x) (v1 y)) }

/-- Opcode 8xy6 (SHR Vx Vy), `shr`: flag first, then the shift reads
`v[x]` again.  The `y` operand is ignored by the source. -/
def shr (s : ChipContext) (x _y : Nat) : ChipContext :=
  let v1 := Function.update s.v 15 (s.v x &&& 1)
  { s with v := Function.update v1 x (v1 x >>> 1) }

/-- Opcode 8xy7 (SUBN Vx, Vy), `subn`: flag first, then the subtraction
reads the registers again. -/
def subn (s : ChipContext) (x y : Nat) : ChipContext :=
  let v1 := Function.update s.v 15 (if s.v x < s.v y then 1 else 0)
  { s with v := Function.update v1 x (wsub (v1 y) (v1 x)) }

/-- Opcode 8xyE (SHL Vx Vy), `shl`: flag first, then the shift reads
`v[x]` again; the u8 left shift drops the high bit.  The `y` operand is
ignored by the source. -/
def shl (s : ChipContext) (x _y : Nat) : ChipContext :=
  let v1 := Function.update s.v 15 ((s.v x &&& 0x80) >>> 7)
  { s with v := Function.update v1 x ((v1 x <<< 1) % 256) }

/-- Opcode 9xy0 (SNE Vx, Vy), `sne`. -/
def sne (s : ChipContext) (x y : Nat) : ChipContext :=
  if s.v x ≠ s.v y then { s with pc := (s.pc + 2) % 65536 } else s

/-- Opcode Annn (LD I, addr), `set_index`. -/
def set_index (s : ChipContext) (nnn : Nat) : ChipContext :=
  { s with i := nnn }

/-- Opcode Bnnn (JP V0, addr), `jump_v0`. -/
def jump_v0 (s : ChipContext) (nnn : Nat) : ChipContext :=
  { s with pc := (nnn + s.v 0) % 65536 }

/-- Opcode Cxkk (RND Vx, byte), `rnd`, with the random byte passed as an
oracle argument. -/
def rnd (rand : Nat) (s : ChipContext) (x kk : Nat) : ChipContext :=
  { s with v := Function.update s.v x (rand &&& kk) }

/-- Pointwise framebuffer write, the image of an assignment to
`framebuffer[cx][cy]`. -/
def fbWrite (fb : Fb) (cx cy : Nat) (b : Bool) : Fb :=
  fun a b' => if a = cx ∧ b' = cy then b else fb a b'

/-- Loop state of the Dxyn drawing loops: the framebuffer, the collision
flag value destined for `v[0xF]`, the column cursor `x_temp` and the row
cursor `y_coord`. -/
structure DrawSt where
  fb : Fb
  vf : Nat
  xt : Nat
  yc : Nat

/-- Body of the inner `for bitset in (0..8).rev()` loop of `draw`: test
the sprite bit, record a collision into the flag, XOR the pixel, advance
the column cursor with wraparound. -/
def drawBit (byte : Nat) (st : DrawSt) (bitset : Nat) : DrawSt :=
  let swap_pixel : Bool := ((byte >>> bitset) &&& 1) != 0
  { st with
      fb := fbWrite st.fb st.xt st.yc (Bool.xor (st.fb st.xt st.yc) swap_pixel),
      vf := if st.fb st.xt st.yc && swap_pixel then 1 else st.vf,
      xt := (st.xt + 1) % 64 }

/-- One row of `draw`: the inner loop over bits 7 down to 0. -/
def drawRow (byte : Nat) (st : DrawSt) : DrawSt :=
  (List.range 8).reverse.foldl (drawBit byte) st

/-- Body of the outer `for offset in 0..n` loop of `draw`: read the
sprite byte at `I + offset`, reset the column cursor, draw the row,
advance the row cursor with wraparound. -/
def drawOffset (mem : Nat → Nat) (i x0 : Nat) (st : DrawSt) (offset : Nat) :
    DrawSt :=
  let st' := drawRow (mem ((i + offset) % 65536)) { st with xt := x0 }
  { st' with yc := (st'.yc + 1) % 32 }

/-- Opcode Dxyn (DRW Vx, Vy, nibble), `draw`: XOR-composite an n-row
sprite read at `I` onto the framebuffer at `(v[x] mod 64, v[y] mod 32)`,
zeroing `v[0xF]` first and setting it to 1 on any collision. -/
def draw (s : ChipContext) (x y n : Nat) : ChipContext :=
  let x0 := s.v x % 64
  let y0 := s.v y % 32
  let st := (List.range n).foldl (drawOffset s.memory s.i x0)
    { fb := s.framebuffer, vf := 0, xt := x0, yc := y0 }
  { s with framebuffer := st.fb, v := Function.update s.v 15 st.vf }

/-- Opcode Ex9E (SKP Vx), `skip_key`. -/
def skip_key (s : ChipContext) (x : Nat) : ChipContext :=
  if s.keyboard (s.v x) then { s with pc := (s.pc + 2) % 65536 } else s

/-- Opcode ExA1 (SKNP Vx), `skip_not_key`. -/
def skip_not_key (s : ChipContext) (x : Nat) : ChipContext :=
  if !s.keyboard (s.v x) then { s with pc := (s.pc + 2) % 65536 } else s

/-- Opcode Fx07 (LD Vx, DT), `load_vx_dt`. -/
def load_vx_dt (s : ChipContext) (x : Nat) : ChipContext :=
  { s with v := Function.update s.v x s.dt }

/-- Linear scan with early exit, the image of the
`for i in 0..chip.keyboard.len()` loop of `load_key`: starting at index
`idx` with `rem` entries left, return the first index whose key flag is
set. -/
def findFirstKey (kb : Nat → Bool) (idx : Nat) : Nat → Option Nat
  | 0 => none
  | rem + 1 => if kb idx then some idx else findFirstKey kb (idx + 1) rem

/-- Opcode Fx0A (LD Vx, K), `load_key`: store the first pressed key
index into `v[x]`; if no key is pressed, rewind the program counter by 2
(u16 wrapping subtraction). -/
def load_key (s : ChipContext) (x : Nat) : ChipContext :=
  match findFirstKey s.keyboard 0 16 with
  | some k => { s with v := Function.update s.v x k }
  | none => { s with pc := (s.pc + 65534) % 65536 }

/-- Opcode Fx15 (LD DT, Vx), `load_dt_vx`. -/
def load_dt_vx (s : ChipContext) (x : Nat) : ChipContext :=
  { s with dt := s.v x }

/-- Opcode Fx18 (LD ST, Vx), `load_st_vx`. -/
def load_st_vx (s : ChipContext) (x : Nat) : ChipContext :=
  { s with st := s.v x }

/-- Opcode Fx1E (ADD I, Vx), `add_i_vx`: u16 addition with no masking to
the 12-bit address range. -/
def add_i_vx (s : ChipContext) (x : Nat) : ChipContext :=
  { s with i := (s.i + s.v x) % 65536 }

/-- Opcode Fx29 (LD F, Vx), `load_f_vx`: font table base 0x50, stride 5. -/
def load_f_vx (s : ChipContext) (x : Nat) : ChipContext :=
  { s with i := 0x50 + s.v x * 5 }

/-- Opcode Fx33 (LD B, Vx), `load_b_vx`: BCD decomposition written to
`I`, `I + 1`, `I + 2`, with no masking of the addresses. -/
def load_b_vx (s : ChipContext) (x : Nat) : ChipContext :=
  let m1 := Function.update s.memory s.i (s.v x / 100)
  let m2 := Function.update m1 ((s.i + 1) % 65536) (s.v x / 10 % 10)
  { s with memory := Function.update m2 ((s.i + 2) % 65536) (s.v x % 10) }

/-- Opcode Fx55 (LD [I], Vx), `load_i_vx`: registers `v[0..=x]` stored
to memory at `I`. -/
def load_i_vx (s : ChipContext) (x : Nat) : ChipContext :=
  { s with
      memory := (List.range (x + 1)).foldl
        (fun m j => Function.update m ((s.i + j) % 65536) (s.v j)) s.memory }

/-- Opcode Fx65 (LD Vx, [I]), `load_vx_i`: registers `v[0..=x]` loaded
from memory at `I`. -/
def load_vx_i (s : ChipContext) (x : Nat) : ChipContext :=
  { s with
      v := (List.range (x + 1)).foldl
        (fun vv j => Function.update vv j (s.memory ((s.i + j) % 65536))) s.v }

/-- The timer block at the end of the main loop: both countdown timers
step toward zero, saturating at zero. -/
def tick_timers (s : ChipContext) : ChipContext :=
  { s with dt := if 0 < s.dt then s.dt - 1 else 0,
           st := if 0 < s.st then s.st - 1 else 0 }

/-- Decoded instruction variants, one per arm of the opcode dispatch in
`main`. -/
inductive Instr where
  | nop
  | cls
  | ret
  | jp (nnn : Nat)
  | call (nnn : Nat)
  | seB (x kk : Nat)
  | sneB (x kk : Nat)
  | seR (x y : Nat)
  | ldB (x kk : Nat)
  | addB (x kk : Nat)
  | ldR (x y : Nat)
  | orR (x y : Nat)
  | andR (x y : Nat)
  | xorR (x y : Nat)
  | addR (x y : Nat)
  | subR (x y : Nat)
  | shrR (x y : Nat)
  | subnR (x y : Nat)
  | shlR (x y : Nat)
  | sneR (x y : Nat)
  | ldI (nnn : Nat)
  | jpV0 (nnn : Nat)
  | rndB (x kk : Nat)
  | drw (x y n : Nat)
  | skp (x : Nat)
  | sknp (x : Nat)
  | ldVxDt (x : Nat)
  | ldVxK (x : Nat)
  | ldDtVx (x : Nat)
  | ldStVx (x : Nat)
  | addIVx (x : Nat)
  | ldFVx (x : Nat)
  | ldBVx (x : Nat)
  | ldIVx (x : Nat)
  | ldVxI (x : Nat)
deriving DecidableEq

/-- Field x of an opcode: the second nibble. -/
def opX (op : Nat) : Nat := (op &&& 0x0F00) >>> 8

/-- Field y of an opcode: the third nibble. -/
def opY (op : Nat) : Nat := (op &&& 0x00F0) >>> 4

/-- Field kk of an opcode: the low byte. -/
def opKK (op : Nat) : Nat := op &&& 0x00FF

/-- Field nnn of an opcode: the low 12 bits. -/
def opNNN (op : Nat) : Nat := op &&& 0x0FFF

/-- Field n of an opcode: the low nibble. -/
def opN (op : Nat) : Nat := op &&& 0x000F

/-- Instruction decoding, mirroring the nested `match` over
`opcode >> 12` and the secondary discriminants in `main` (lines
438-556); `none` corresponds to the `panic!` arms. -/
def decode (op : Nat) : Option Instr :=
  match op >>> 12 with
  | 0x0 =>
    match op &&& 0x00FF with
    | 0x00 => some .nop
    | 0xE0 => some .cls
    | 0xEE => some .ret
    | _ => none
  | 0x1 => some (.jp (opNNN op))
  | 0x2 => some (.call (opNNN op))
  | 0x3 => some (.seB (opX op) (opKK op))
  | 0x4 => some (.sneB (opX op) (opKK op))
  | 0x5 => some (.seR (opX op) (opY op))
  | 0x6 => some (.ldB (opX op) (opKK op))
  | 0x7 => some (.addB (opX op) (opKK op))
  | 0x8 =>
    match op &&& 0x000F with
    | 0x0 => some (.ldR (opX op) (opY op))
    | 0x1 => some (.orR (opX op) (opY op))
    | 0x2 => some (.andR (opX op) (opY op))
    | 0x3 => some (.xorR (opX op) (opY op))
    | 0x4 => some (.addR (opX op) (opY op))
    | 0x5 => some (.subR (opX op) (opY op))
    | 0x6 => some (.shrR (opX op) (opY op))
    | 0x7 => some (.subnR (opX op) (opY op))
    | 0xE => some (.shlR (opX op) (opY op))
    | _ => none
  | 0x9 => some (.sneR (opX op) (opY op))
  | 0xA => some (.ldI (opNNN op))
  | 0xB => some (.jpV0 (opNNN op))
  | 0xC => some (.rndB (opX op) (opKK op))
  | 0xD => some (.drw (opX op) (opY op) (opN op))
  | 0xE =>
    match op &&& 0x00FF with
    | 0x9E => some (.skp (opX op))
    | 0xA1 => some (.sknp (opX op))
    | _ => none
  | 0xF =>
    match op &&& 0x00FF with
    | 0x07 => some (.ldVxDt (opX op))
    | 0x0A => some (.ldVxK (opX op))
    | 0x15 => some (.ldDtVx (opX op))
    | 0x18 => some (.ldStVx (opX op))
    | 0x1E => some (.addIVx (opX op))
    | 0x29 => some (.ldFVx (opX op))
    | 0x33 => some (.ldBVx (opX op))
    | 0x55 => some (.ldIVx (opX op))
    | 0x65 => some (.ldVxI (opX op))
    | _ => none
  | _ => none

/-- Execution of one decoded instruction against the machine state;
`none` models the stack bound panics of `call_sbr` and `return_sbr`. -/
def execInstr (rand : Nat) (inst : Instr) (s : ChipContext) :
    Option ChipContext :=
  match inst with
  | .nop => some s
  | .cls => some (clean_screen s)
  | .ret => return_sbr s
  | .jp nnn => some (jump s nnn)
  | .call nnn => call_sbr s nnn
  | .seB x kk => some (skip_if s x kk)
  | .sneB x kk => some (skip_diff s x kk)
  | .seR x y => some (skip_equals s x y)
  | .ldB x kk => some (load s x kk)
  | .addB x kk => some (add s x kk)
  | .ldR x y => some (load_vx_vy s x y)
  | .orR x y => some (or s x y)
  | .andR x y => some (and s x y)
  | .xorR x y => some (xor s x y)
  | .addR x y => some (add_vx_vy s x y)
  | .subR x y => some (sub s x y)
  | .shrR x y => some (shr s x y)
  | .subnR x y => some (subn s x y)
  | .shlR x y => some (shl s x y)
  | .sneR x y => some (sne s x y)
  | .ldI nnn => some (set_index s nnn)
  | .jpV0 nnn => some (jump_v0 s nnn)
  | .rndB x kk => some (rnd rand s x kk)
  | .drw x y n => some (draw s x y n)
  | .skp x => some (skip_key s x)
  | .sknp x => some (skip_not_key s x)
  | .ldVxDt x => some (load_vx_dt s x)
  | .ldVxK x => some (load_key s x)
  | .ldDtVx x => some (load_dt_vx s x)
  | .ldStVx x => some (load_st_vx s x)
  | .addIVx x => some (add_i_vx s x)
  | .ldFVx x => some (load_f_vx s x)
  | .ldBVx x => some (load_b_vx s x)
  | .ldIVx x => some (load_i_vx s x)
  | .ldVxI x => some (load_vx_i s x)

/-- The opcode fetched at the program counter: two big-endian bytes. -/
def fetchOp (s : ChipContext) : Nat :=
  (s.memory s.pc <<< 8) ||| s.memory ((s.pc + 1) % 65536)

/-- Outcome of one fetch-decode-execute cycle.  `invalidOpcode op`
models the `panic!` on an unmatched opcode: the run aborts and the only
datum in the panic message is the opcode value.  `indexPanic` models the
Rust bounds panic on a stack overflow or underflow. -/
inductive StepResult where
  | ok : ChipContext → StepResult
  | invalidOpcode : Nat → StepResult
  | indexPanic : StepResult

/-- One iteration of the fetch-decode-execute loop in `main`: fetch two
bytes, advance the program counter by 2, then dispatch. -/
def step (rand : Nat) (s : ChipContext) : StepResult :=
  let op := fetchOp s
  let s1 : ChipContext := { s with pc := (s.pc + 2) % 65536 }
  match decode op with
  | none => .invalidOpcode op
  | some inst =>
    match execInstr rand inst s1 with
    | none => .indexPanic
    | some s2 => .ok s2

/-- Iterate `step` from a previous outcome; a failure outcome is final,
as the source panic aborts the process. -/
def runSteps (rand : Nat) : Nat → StepResult → StepResult
  | 0, r => r
  | n + 1, .ok s => runSteps rand n (step rand s)
  | _ + 1, .invalidOpcode op => .invalidOpcode op
  | _ + 1, .indexPanic => .indexPanic

/-- Program counter of a successful outcome. -/
def resultPc : StepResult → Option Nat
  | .ok s => some s.pc
  | _ => none

/-- Index register of a successful outcome. -/
def resultI : StepResult → Option Nat
  | .ok s => some s.i
  | _ => none

/-- Whether an outcome is a successful state. -/
def StepResult.isOk : StepResult → Bool
  | .ok _ => true
  | _ => false

/-- Whether an outcome is the stack bounds panic. -/
def StepResult.isStackPanic : StepResult → Bool
  | .indexPanic => true
  | _ => false

/-- Accumulated XOR contribution of one sprite row to pixel `(cx, cy)`:
the row is drawn at row `yc`, bit `b` of the byte lands on the column
cursor, which starts at `xt` and advances with wraparound. -/
def rowMask (byte : Nat) : List Nat → Nat → Nat → Nat → Nat → Bool
  | [], _, _, _, _ => false
  | b :: bs, xt, yc, cx, cy =>
      Bool.xor
        (if cx = xt ∧ cy = yc then ((byte >>> b) &&& 1) != 0 else false)
        (rowMask byte bs ((xt + 1) % 64) yc cx cy)

/-- Whether one sprite row collides with a set pixel of framebuffer
`fb`: some bit of the row is set and the pixel under its column cursor
position is set. -/
def rowHit (byte : Nat) : List Nat → Nat → Nat → Fb → Bool
  | [], _, _, _ => false
  | b :: bs, xt, yc, fb =>
      (fb xt yc && (((byte >>> b) &&& 1) != 0)) ||
        rowHit byte bs ((xt + 1) % 64) yc fb

/-- Accumulated XOR contribution of a whole sprite to pixel `(cx, cy)`:
one row per offset in `os`, each read at `I + offset`, rows descending
with wraparound from `yc`. -/
def sprMask (mem : Nat → Nat) (i x0 : Nat) :
    List Nat → Nat → Nat → Nat → Bool
  | [], _, _, _ => false
  | o :: os, yc, cx, cy =>
      Bool.xor
        (rowMask (mem ((i + o) % 65536)) (List.range 8).reverse x0 yc cx cy)
        (sprMask mem i x0 os ((yc + 1) % 32) cx cy)

/-- Whether a whole sprite collides with a set pixel of framebuffer
`fb`. -/
def sprHit (mem : Nat → Nat) (i x0 : Nat) : List Nat → Nat → Fb → Bool
  | [], _, _ => false
  | o :: os, yc, fb =>
      rowHit (mem ((i + o) % 65536)) (List.range 8).reverse x0 yc fb ||
        sprHit mem i x0 os ((yc + 1) % 32) fb

/-- Zeroed machine state with the program counter at the ROM base. -/
def zeroCtx : ChipContext where
  memory := fun _ => 0
  v := fun _ => 0
  dt := 0
  st := 0
  pc := 0x200
  sp := 0
  i := 0
  stack := fun _ => 0
  framebuffer := fun _ _ => false
  keyboard := fun _ => false

/-- State for the C1 counterexample: `v[15] = 100`, `v[0] = 200`. -/
def csAdd : ChipContext :=
  { zeroCtx with v := fun j => if j = 0 then 200 else if j = 15 then 100 else 0 }

/-- State for the C2 counterexample: `v[0] = 10`, `v[15] = 3`. -/
def csSub : ChipContext :=
  { zeroCtx with v := fun j => if j = 0 then 10 else if j = 15 then 3 else 0 }

/-- State for the C7 counterexample: `v[15] = 3`. -/
def csShr : ChipContext :=
  { zeroCtx with v := fun j => if j = 15 then 3 else 0 }

/-- State for the C3 witness: a one-row sprite 0xF0 at `I = 0x300`,
coordinates taken from `v[0] = 3`, `v[1] = 5`, one pixel already set at
(3, 5). -/
def csDraw : ChipContext :=
  { zeroCtx with
      memory := fun a => if a = 0x300 then 0xF0 else 0,
      v := fun j => if j = 0 then 3 else if j = 1 then 5 else 0,
      i := 0x300,
      framebuffer := fun cx cy => decide (cx = 3 ∧ cy = 5) }

/-- State for the C4 nested-call scenario: every even address holds the
byte 0x22 and every odd address `a` holds `(a + 1) mod 256`, so each
even `pc` in the ROM area executes `CALL (pc + 2)`. -/
def csCall : ChipContext :=
  { zeroCtx with memory := fun a => if a % 2 = 0 then 0x22 else (a + 1) % 256 }

/-- State for the C4 witness: `CALL 0x300` at 0x200 and `RET` at 0x300. -/
def csCallRet : ChipContext :=
  { zeroCtx with
      memory := fun a =>
        if a = 0x200 then 0x23 else
        if a = 0x300 then 0x00 else
        if a = 0x301 then 0xEE else 0 }

/-- States for the C5 counterexample: the unmatched opcode 0xE000 at two
different program counters. -/
def csBadOpA : ChipContext :=
  { zeroCtx with memory := fun a => if a = 0x200 then 0xE0 else 0 }

/-- Second state for the C5 counterexample, with `pc = 0x400`. -/
def csBadOpB : ChipContext :=
  { zeroCtx with pc := 0x400,
                 memory := fun a => if a = 0x400 then 0xE0 else 0 }

/-- State for the C6 counterexample: the program `V0 = 1; I = 0xFFF;
I += V0` starting at 0x200. -/
def csOob : ChipContext :=
  { zeroCtx with
      memory := fun a =>
        if a = 0x200 then 0x60 else
        if a = 0x201 then 0x01 else
        if a = 0x202 then 0xAF else
        if a = 0x203 then 0xFF else
        if a = 0x204 then 0xF0 else
        if a = 0x205 then 0x1E else 0 }

/-- State for the C10 witness: keys 3 and 5 pressed. -/
def csKeys : ChipContext :=
  { zeroCtx with keyboard := fun j => decide (j = 3 ∨ j = 5) }

/-- State for the C8 witness: `v[1] = 5`. -/
def csTimer : ChipContext :=
  { zeroCtx with v := fun j => if j = 1 then 5 else 0 }

/-- C1 (counterexample): at `x = 15`, `y = 0` with `v[15] = 100` and
`v[0] = 200`, executing ADD Vx, Vy leaves `v[15] = 1` (the carry flag,
written last), not `(100 + 200) mod 256 = 44`, so the claim as stated
for all register indices fails. -/
theorem C1_counterexample :
    ¬ ((add_vx_vy csAdd 15 0).v 15 = (csAdd.v 15 + csAdd.v 0) % 256 ∧
       (add_vx_vy csAdd 15 0).v 15 =
         if 255 < csAdd.v 15 + csAdd.v 0 then 1 else 0) := by
  decide

/-- C1 (amended): for `x ≠ 15`, executing ADD Vx, Vy (8xy4) leaves
`v[x]` equal to `(v[x] + v[y]) mod 256` and `v[0xF]` equal to 1 when
the sum exceeds 255 and 0 otherwise.  For `x = 15` the carry flag,
written after the sum, overwrites it. -/
theorem C1_add_vx_vy (s : ChipContext) (x y : Nat) (hx : x ≠ 15) :
    (add_vx_vy s x y).v x = (s.v x + s.v y) % 256 ∧
    (add_vx_vy s x y).v 15 = if 255 < s.v x + s.v y then 1 else 0 := by
  unfold add_vx_vy
  refine ⟨?_, ?_⟩
  · simp [Function.update_noteq hx, Function.update_same]
  · simp [Function.update_same]

/-- C1 (witness): the amended theorem applied at `x = 0`, `y = 1` on the
state with `v[0] = 200`. -/
theorem C1_witness :
    (add_vx_vy csAdd 0 1).v 0 = (csAdd.v 0 + csAdd.v 1) % 256 ∧
    (add_vx_vy csAdd 0 1).v 15 = if 255 < csAdd.v 0 + csAdd.v 1 then 1 else 0 :=
  C1_add_vx_vy csAdd 0 1 (by decide)

/-- C2 (counterexample): at `x = 0`, `y = 15` with `v[0] = 10` and
`v[15] = 3`, executing SUB Vx, Vy first writes the borrow flag 1 into
`v[15]` and then computes `v[0] = 10 - v[15] = 9`, not
`(10 - 3) mod 256 = 7`, so the claim as stated for all register indices
fails. -/
theorem C2_counterexample :
    ¬ (((sub csSub 0 15).v 15 = 1 ↔ csSub.v 15 < csSub.v 0) ∧
       (sub csSub 0 15).v 0 = (csSub.v 0 + 256 - csSub.v 15) % 256) := by
  decide

/-- C2 (amended): for `x ≠ 15` and `y ≠ 15`, executing SUB Vx, Vy
(8xy5) sets `v[0xF] = 1` iff the old `v[x]` exceeds the old `v[y]`, and
`v[x]` becomes the 8-bit wrapping difference.  When `x = 15` or
`y = 15` the flag write, performed before the subtraction, corrupts an
operand of the subtraction. -/
theorem C2_sub (s : ChipContext) (x y : Nat) (hx : x ≠ 15) (hy : y ≠ 15)
    (hvy : s.v y < 256) :
    ((sub s x y).v 15 = 1 ↔ s.v y < s.v x) ∧
    (sub s x y).v x = (s.v x + 256 - s.v y) % 256 := by
  unfold sub
  constructor
  · simp only [Function.update_noteq (Ne.symm hx), Function.update_same]
    by_cases h : s.v y < s.v x <;> simp [h]
  · simp only [Function.update_same, Function.update_noteq hx,
      Function.update_noteq hy, wsub]
    rw [Nat.mod_eq_of_lt hvy]
    omega

/-- C2 (witness): the amended theorem applied at `x = 0`, `y = 1` on the
state with `v[0] = 10`, `v[1] = 0`. -/
theorem C2_witness :
    ((sub csSub 0 1).v 15 = 1 ↔ csSub.v 1 < csSub.v 0) ∧
    (sub csSub 0 1).v 0 = (csSub.v 0 + 256 - csSub.v 1) % 256 :=
  C2_sub csSub 0 1 (by decide) (by decide) (by decide)

/-- C7 (counterexample): at `x = 15` with `v[15] = 3`, SHR first writes
the low bit 1 into `v[15]` and then shifts that flag, leaving
`v[15] = 0`; the claim requires `v[15] = 3 >> 1 = 1` (and the flag
conjunct `v[15] = 3 AND 1 = 1`), so the claim as stated for all
register indices fails. -/
theorem C7_counterexample :
    ¬ ((shr csShr 15 0).v 15 = csShr.v 15 &&& 1 ∧
       (shr csShr 15 0).v 15 = csShr.v 15 >>> 1) := by
  decide

/-- C7 (amended): for `x ≠ 15`, SHR Vx (8xy6) sets `v[0xF]` to the
pre-shift low bit and halves `v[x]`, SHL Vx (8xyE) sets `v[0xF]` to the
pre-shift high bit and doubles `v[x]` modulo 256, and for both the `y`
operand has no effect and the shift amount is always 1.  For `x = 15`
the flag write, performed first, is what gets shifted. -/
theorem C7_shr_shl (s : ChipContext) (x y y2 : Nat) (hx : x ≠ 15) :
    (shr s x y).v 15 = s.v x &&& 1 ∧
    (shr s x y).v x = s.v x >>> 1 ∧
    (shl s x y).v 15 = (s.v x &&& 0x80) >>> 7 ∧
    (shl s x y).v x = (s.v x <<< 1) % 256 ∧
    shr s x y = shr s x y2 ∧
    shl s x y = shl s x y2 := by
  unfold shr shl
  refine ⟨?_, ?_, ?_, ?_, rfl, rfl⟩ <;>
    simp [Function.update_noteq hx, Function.update_noteq (Ne.symm hx),
      Function.update_same]

/-- Helper: a successful key scan returns a set key, within range, and
every key before it is clear. -/
theorem findFirstKey_some (kb : Nat → Bool) :
    ∀ rem idx r, findFirstKey kb idx rem = some r →
      kb r = true ∧ idx ≤ r ∧ r < idx + rem ∧
        ∀ j, idx ≤ j → j < r → kb j = false := by
  intro rem
  induction rem with
  | zero => intro idx r h; simp [findFirstKey] at h
  | succ rem ih =>
    intro idx r h
    rw [findFirstKey] at h
    by_cases hk : kb idx
    · simp only [hk, if_true, Option.some.injEq] at h
      subst h
      exact ⟨hk, Nat.le_refl _, by omega, fun j h1 h2 => by omega⟩
    · simp only [hk, if_false] at h
      obtain ⟨h1, h2, h3, h4⟩ := ih (idx + 1) r h
      refine ⟨h1, by omega, by omega, fun j hj1 hj2 => ?_⟩
      rcases Nat.eq_or_lt_of_le hj1 with rfl | hlt
      · simpa using hk
      · exact h4 j hlt hj2

/-- Helper: if every key in the scanned window is clear, the scan
fails. -/
theorem findFirstKey_none (kb : Nat → Bool) :
    ∀ rem idx, (∀ j, idx ≤ j → j < idx + rem → kb j = false) →
      findFirstKey kb idx rem = none := by
  intro rem
  induction rem with
  | zero => intro idx _; rfl
  | succ rem ih =>
    intro idx h
    rw [findFirstKey]
    have h0 : kb idx = false := h idx (Nat.le_refl _) (by omega)
    simp only [h0, if_false]
    exact ih (idx + 1) fun j h1 h2 => h j (by omega) (by omega)

/-- Helper: if the scan fails, every key in the scanned window is
clear. -/
theorem findFirstKey_none_all (kb : Nat → Bool) :
    ∀ rem idx, findFirstKey kb idx rem = none →
      ∀ j, idx ≤ j → j < idx + rem → kb j = false := by
  intro rem
  induction rem with
  | zero => intro idx _ j h1 h2; omega
  | succ rem ih =>
    intro idx h j h1 h2
    rw [findFirstKey] at h
    by_cases hk : kb idx
    · simp [hk] at h
    · simp only [hk, if_false] at h
      rcases Nat.eq_or_lt_of_le h1 with rfl | hlt
      · simpa using hk
      · exact ih (idx + 1) h j hlt (by omega)

/-- C8: a timer tick maps each of the delay and sound timers from `t`
to `t - 1` (truncated at zero, so a zero timer stays zero and the
timers never go below zero), and the Fx15 scenario: setting the delay
timer to 5 and ticking five times reaches 0, and a sixth tick leaves
it at 0. -/
theorem C8_timers (s : ChipContext) (x : Nat) (h5 : s.v x = 5) :
    (tick_timers s).dt = s.dt - 1 ∧
    (tick_timers s).st = s.st - 1 ∧
    (tick_timers (tick_timers (tick_timers (tick_timers
      (tick_timers (load_dt_vx s x)))))).dt = 0 ∧
    (tick_timers (tick_timers (tick_timers (tick_timers (tick_timers
      (tick_timers (load_dt_vx s x))))))).dt = 0 := by
  refine ⟨?_, ?_, ?_, ?_⟩ <;> simp [tick_timers, load_dt_vx, h5] <;> omega

/-- C8 (witness): the theorem applied to the state with `v[1] = 5`. -/
theorem C8_witness :
    (tick_timers csTimer).dt = csTimer.dt - 1 ∧
    (tick_timers csTimer).st = csTimer.st - 1 ∧
    (tick_timers (tick_timers (tick_timers (tick_timers
      (tick_timers (load_dt_vx csTimer 1)))))).dt = 0 ∧
    (tick_timers (tick_timers (tick_timers (tick_timers (tick_timers
      (tick_timers (load_dt_vx csTimer 1))))))).dt = 0 :=
  C8_timers csTimer 1 (by decide)

/-- C10: executing Fx0A when at least one key flag is set assigns the
smallest set index in 0-15 to `v[x]` and leaves the program counter
alone; when no key flag is set it decrements the program counter by
exactly 2 and every other component of the state is unchanged. -/
theorem C10_load_key (s : ChipContext) (x : Nat)
    (hpc1 : 2 ≤ s.pc) (hpc2 : s.pc < 65536) :
    ((∃ j, j < 16 ∧ s.keyboard j = true) →
      (load_key s x).pc = s.pc ∧
      (load_key s x).v x < 16 ∧
      s.keyboard ((load_key s x).v x) = true ∧
      (∀ j, j < (load_key s x).v x → s.keyboard j = false)) ∧
    ((∀ j, j < 16 → s.keyboard j = false) →
      (load_key s x).pc = s.pc - 2 ∧
      (load_key s x).v = s.v ∧
      (load_key s x).memory = s.memory ∧
      (load_key s x).framebuffer = s.framebuffer ∧
      (load_key s x).dt = s.dt ∧
      (load_key s x).st = s.st ∧
      (load_key s x).stack = s.stack ∧
      (load_key s x).sp = s.sp ∧
      (load_key s x).i = s.i) := by
  constructor
  · rintro ⟨j, hj, hkey⟩
    cases hf : findFirstKey s.keyboard 0 16 with
    | none =>
      have hclear := findFirstKey_none_all s.keyboard 16 0 hf j (Nat.zero_le j)
        (by omega)
      rw [hkey] at hclear
      cases hclear
    | some r =>
      obtain ⟨h1, _, h3, h4⟩ := findFirstKey_some s.keyboard 16 0 r hf
      refine ⟨?_, ?_, ?_, ?_⟩
      · simp [load_key, hf]
      · simp only [load_key, hf, Function.update_same]
        omega
      · simp only [load_key, hf, Function.update_same]
        exact h1
      · intro m hm
        simp only [load_key, hf, Function.update_same] at hm
        exact h4 m (Nat.zero_le m) hm
  · intro hnone
    have hf : findFirstKey s.keyboard 0 16 = none :=
      findFirstKey_none s.keyboard 16 0 fun j _ hj => hnone j (by omega)
    refine ⟨?_, ?_, ?_, ?_, ?_, ?_, ?_, ?_, ?_⟩ <;>
      (simp only [load_key, hf]; try omega)

/-- C10 (witness): the theorem applied to the state with keys 3 and 5
pressed and `pc = 0x200`. -/
theorem C10_witness :
    ((∃ j, j < 16 ∧ csKeys.keyboard j = true) →
      (load_key csKeys 2).pc = csKeys.pc ∧
      (load_key csKeys 2).v 2 < 16 ∧
      csKeys.keyboard ((load_key csKeys 2).v 2) = true ∧
      (∀ j, j < (load_key csKeys 2).v 2 → csKeys.keyboard j = false)) ∧
    ((∀ j, j < 16 → csKeys.keyboard j = false) →
      (load_key csKeys 2).pc = csKeys.pc - 2 ∧
      (load_key csKeys 2).v = csKeys.v ∧
      (load_key csKeys 2).memory = csKeys.memory ∧
      (load_key csKeys 2).framebuffer = csKeys.framebuffer ∧
      (load_key csKeys 2).dt = csKeys.dt ∧
      (load_key csKeys 2).st = csKeys.st ∧
      (load_key csKeys 2).stack = csKeys.stack ∧
      (load_key csKeys 2).sp = csKeys.sp ∧
      (load_key csKeys 2).i = csKeys.i) :=
  C10_load_key csKeys 2 (by decide) (by decide)

/-- Helper: a drawing step keeps the row cursor. -/
theorem foldl_drawBit_yc (byte : Nat) :
    ∀ (bs : List Nat) (st : DrawSt), (bs.foldl (drawBit byte) st).yc = st.yc := by
  intro bs
  induction bs with
  | nil => intro st; rfl
  | cons b bs ih => intro st; rw [List.foldl_cons, ih]; rfl

/-- Helper: the inner drawing loop XORs the row mask into the
framebuffer pointwise. -/
theorem foldl_drawBit_fb (byte : Nat) :
    ∀ (bs : List Nat) (st : DrawSt) (cx cy : Nat),
      (bs.foldl (drawBit byte) st).fb cx cy
        = Bool.xor (st.fb cx cy) (rowMask byte bs st.xt st.yc cx cy) := by
  intro bs
  induction bs with
  | nil => intro st cx cy; simp [rowMask]
  | cons b bs ih =>
    intro st cx cy
    rw [List.foldl_cons, ih]
    simp only [drawBit, fbWrite, rowMask]
    by_cases h : cx = st.xt ∧ cy = st.yc
    · obtain ⟨h1, h2⟩ := h
      subst h1; subst h2
      rw [if_pos ⟨rfl, rfl⟩, if_pos ⟨rfl, rfl⟩, Bool.xor_assoc]
    · rw [if_neg h, if_neg h, Bool.false_xor]

/-- Helper: a row mask misses every pixel outside its row. -/
theorem rowMask_ne (byte : Nat) :
    ∀ (bs : List Nat) (xt yc cx cy : Nat), cy ≠ yc →
      rowMask byte bs xt yc cx cy = false := by
  intro bs
  induction bs with
  | nil => intro xt yc cx cy _; rfl
  | cons b bs ih =>
    intro xt yc cx cy h
    rw [rowMask, ih _ _ _ _ h, if_neg (fun hc => h hc.2), Bool.xor_false]

/-- Helper: a row collision test only reads the framebuffer at the
cursor positions of the row. -/
theorem rowHit_congr_pos (byte : Nat) :
    ∀ (bs : List Nat) (xt yc : Nat) (fb1 fb2 : Fb), xt < 64 →
      (∀ j, j < bs.length → fb1 ((xt + j) % 64) yc = fb2 ((xt + j) % 64) yc) →
      rowHit byte bs xt yc fb1 = rowHit byte bs xt yc fb2 := by
  intro bs
  induction bs with
  | nil => intro xt yc fb1 fb2 _ _; rfl
  | cons b bs ih =>
    intro xt yc fb1 fb2 hxt hagree
    rw [rowHit, rowHit]
    have h0 : fb1 xt yc = fb2 xt yc := by
      have h00 := hagree 0 (by simp)
      rwa [Nat.add_zero, Nat.mod_eq_of_lt hxt] at h00
    rw [h0]
    congr 1
    refine ih ((xt + 1) % 64) yc fb1 fb2 (Nat.mod_lt _ (by omega)) ?_
    intro j hj
    have hj1 := hagree (j + 1) (by simp; omega)
    have heq : ((xt + 1) % 64 + j) % 64 = (xt + (j + 1)) % 64 := by omega
    rw [heq]
    exact hj1

/-- Helper: a row collision test only reads the framebuffer in its own
row. -/
theorem rowHit_congr_row (byte : Nat) :
    ∀ (bs : List Nat) (xt yc : Nat) (fb1 fb2 : Fb),
      (∀ cx, fb1 cx yc = fb2 cx yc) →
      rowHit byte bs xt yc fb1 = rowHit byte bs xt yc fb2 := by
  intro bs
  induction bs with
  | nil => intro xt yc fb1 fb2 _; rfl
  | cons b bs ih =>
    intro xt yc fb1 fb2 h
    rw [rowHit, rowHit, h xt, ih _ _ _ _ h]

/-- Helper: the inner drawing loop raises the collision flag exactly
when the row collides with the framebuffer as it was at row start. -/
theorem foldl_drawBit_vf (byte : Nat) :
    ∀ (bs : List Nat) (st : DrawSt), st.xt < 64 → bs.length ≤ 64 →
      (bs.foldl (drawBit byte) st).vf
        = if rowHit byte bs st.xt st.yc st.fb then 1 else st.vf := by
  intro bs
  induction bs with
  | nil => intro st _ _; simp [rowHit]
  | cons b bs ih =>
    intro st hxt hlen
    have hlen' : bs.length ≤ 63 := by simp at hlen; omega
    rw [List.foldl_cons,
      ih (drawBit byte st b) (Nat.mod_lt _ (by omega)) (by omega)]
    have hcong : rowHit byte bs ((st.xt + 1) % 64) st.yc (drawBit byte st b).fb
        = rowHit byte bs ((st.xt + 1) % 64) st.yc st.fb := by
      refine rowHit_congr_pos byte bs _ _ _ _ (Nat.mod_lt _ (by omega)) ?_
      intro j hj
      have hne : ((st.xt + 1) % 64 + j) % 64 ≠ st.xt := by omega
      simp only [drawBit, fbWrite]
      rw [if_neg (fun hc => hne hc.1)]
    show (if rowHit byte bs (drawBit byte st b).xt (drawBit byte st b).yc
        (drawBit byte st b).fb then 1 else (drawBit byte st b).vf) = _
    have hxtb : (drawBit byte st b).xt = (st.xt + 1) % 64 := rfl
    have hycb : (drawBit byte st b).yc = st.yc := rfl
    have hvfb : (drawBit byte st b).vf
        = if st.fb st.xt st.yc && (((byte >>> b) &&& 1) != 0) then 1
          else st.vf := rfl
    rw [hxtb, hycb, hcong, hvfb, rowHit]
    cases hh : (st.fb st.xt st.yc && (((byte >>> b) &&& 1) != 0)) <;>
      cases ht : rowHit byte bs ((st.xt + 1) % 64) st.yc st.fb <;>
        simp [hh, ht]

/-- Helper: XOR of bools that are never both true is disjunction. -/
theorem xor_disjoint (a b : Bool) (h : ¬(a = true ∧ b = true)) :
    Bool.xor a b = (a || b) := by
  cases a <;> cases b <;> simp_all

/-- Helper: the nonzero test on a byte, as a decidable proposition. -/
theorem bne_zero_eq_decide (x : Nat) : (x != 0) = decide (x ≠ 0) := by
  cases x <;> simp

/-- Helper: a guarded nonzero test, as a decidable proposition. -/
theorem ite_bne_eq_decide (c : Prop) [Decidable c] (x : Nat) :
    (if c then (x != 0) else false) = decide (c ∧ x ≠ 0) := by
  by_cases h : c <;> simp [h, bne_zero_eq_decide]

/-- Helper: a pixel test conjoined with a nonzero test, as a decidable
proposition. -/
theorem and_bne_eq_decide (a : Bool) (x : Nat) :
    (a && (x != 0)) = decide (a = true ∧ x ≠ 0) := by
  cases a <;> simp [bne_zero_eq_decide]

/-- Helper: splitting the sprite mask across a row list split, with the
row cursor advanced across the first part. -/
theorem sprMask_append (mem : Nat → Nat) (i x0 : Nat) :
    ∀ (os1 os2 : List Nat) (yc cx cy : Nat), yc < 32 →
      sprMask mem i x0 (os1 ++ os2) yc cx cy
        = Bool.xor (sprMask mem i x0 os1 yc cx cy)
            (sprMask mem i x0 os2 ((yc + os1.length) % 32) cx cy) := by
  intro os1
  induction os1 with
  | nil =>
    intro os2 yc cx cy hyc
    simp [sprMask, Nat.mod_eq_of_lt hyc]
  | cons o os1 ih =>
    intro os2 yc cx cy hyc
    conv_rhs => rw [sprMask]
    rw [List.cons_append, sprMask,
      ih os2 ((yc + 1) % 32) cx cy (Nat.mod_lt _ (by omega)), ← Bool.xor_assoc]
    have harg : ((yc + 1) % 32 + os1.length) % 32
        = (yc + (o :: os1).length) % 32 := by
      simp only [List.length_cons]
      omega
    rw [harg]

/-- Helper: splitting the sprite collision test across a row list
split. -/
theorem sprHit_append (mem : Nat → Nat) (i x0 : Nat) :
    ∀ (os1 os2 : List Nat) (yc : Nat) (fb : Fb), yc < 32 →
      sprHit mem i x0 (os1 ++ os2) yc fb
        = (sprHit mem i x0 os1 yc fb ||
            sprHit mem i x0 os2 ((yc + os1.length) % 32) fb) := by
  intro os1
  induction os1 with
  | nil =>
    intro os2 yc fb hyc
    simp [sprHit, Nat.mod_eq_of_lt hyc]
  | cons o os1 ih =>
    intro os2 yc fb hyc
    conv_rhs => rw [sprHit]
    rw [List.cons_append, sprHit,
      ih os2 ((yc + 1) % 32) fb (Nat.mod_lt _ (by omega)), ← Bool.or_assoc]
    have harg : ((yc + 1) % 32 + os1.length) % 32
        = (yc + (o :: os1).length) % 32 := by
      simp only [List.length_cons]
      omega
    rw [harg]

/-- Helper: the outer drawing loop advances the row cursor once per
row, with wraparound. -/
theorem foldl_drawOffset_yc (mem : Nat → Nat) (i x0 : Nat) :
    ∀ (os : List Nat) (st : DrawSt), st.yc < 32 →
      (os.foldl (drawOffset mem i x0) st).yc = (st.yc + os.length) % 32 := by
  intro os
  induction os with
  | nil => intro st h; simp [Nat.mod_eq_of_lt h]
  | cons o os ih =>
    intro st h
    have hyc1 : (drawOffset mem i x0 st o).yc = (st.yc + 1) % 32 := by
      simp only [drawOffset, drawRow, foldl_drawBit_yc]
    rw [List.foldl_cons, ih _ (by rw [hyc1]; exact Nat.mod_lt _ (by omega)), hyc1]
    simp only [List.length_cons]
    omega

/-- Helper: the outer drawing loop XORs the sprite mask into the
framebuffer pointwise. -/
theorem foldl_drawOffset_fb (mem : Nat → Nat) (i x0 : Nat) :
    ∀ (os : List Nat) (st : DrawSt) (cx cy : Nat),
      (os.foldl (drawOffset mem i x0) st).fb cx cy
        = Bool.xor (st.fb cx cy) (sprMask mem i x0 os st.yc cx cy) := by
  intro os
  induction os with
  | nil => intro st cx cy; simp [sprMask]
  | cons o os ih =>
    intro st cx cy
    rw [List.foldl_cons, ih, sprMask]
    have hfb : (drawOffset mem i x0 st o).fb cx cy
        = Bool.xor (st.fb cx cy)
            (rowMask (mem ((i + o) % 65536)) (List.range 8).reverse x0 st.yc
              cx cy) := by
      simp only [drawOffset, drawRow, foldl_drawBit_fb]
    have hyc1 : (drawOffset mem i x0 st o).yc = (st.yc + 1) % 32 := by
      simp only [drawOffset, drawRow, foldl_drawBit_yc]
    rw [hfb, hyc1, Bool.xor_assoc]

/-- Helper: the sprite collision test only reads the framebuffer in the
rows the sprite covers. -/
theorem sprHit_congr (mem : Nat → Nat) (i x0 : Nat) :
    ∀ (os : List Nat) (yc : Nat) (fb1 fb2 : Fb), yc < 32 →
      (∀ cx m, m < os.length → fb1 cx ((yc + m) % 32) = fb2 cx ((yc + m) % 32)) →
      sprHit mem i x0 os yc fb1 = sprHit mem i x0 os yc fb2 := by
  intro os
  induction os with
  | nil => intros; rfl
  | cons o os ih =>
    intro yc fb1 fb2 hyc hagree
    rw [sprHit, sprHit]
    have h0 : ∀ cx, fb1 cx yc = fb2 cx yc := by
      intro cx
      have h00 := hagree cx 0 (by simp)
      rwa [Nat.add_zero, Nat.mod_eq_of_lt hyc] at h00
    rw [rowHit_congr_row _ _ _ _ _ _ h0]
    congr 1
    refine ih ((yc + 1) % 32) fb1 fb2 (Nat.mod_lt _ (by omega)) ?_
    intro cx m hm
    have hm1 := hagree cx (m + 1) (by simp; omega)
    have heq : ((yc + 1) % 32 + m) % 32 = (yc + (m + 1)) % 32 := by omega
    rw [heq]
    exact hm1

/-- Helper: merging an XOR of decidable tests that never hold together
into one test. -/
theorem xor_decide_merge {p q r : Prop} [Decidable p] [Decidable q]
    [Decidable r] (hpq : ¬(p ∧ q)) (hiff : (p ∨ q) ↔ r) :
    Bool.xor (decide p) (decide q) = decide r := by
  by_cases hp : p <;> by_cases hq : q <;> simp_all

/-- Helper: merging a disjunction of decidable tests into one test. -/
theorem or_decide_merge {p q r : Prop} [Decidable p] [Decidable q]
    [Decidable r] (hiff : (p ∨ q) ↔ r) :
    (decide p || decide q) = decide r := by
  by_cases hp : p <;> by_cases hq : q <;> simp_all

/-- Helper: the outer drawing loop raises the collision flag exactly
when the sprite collides with the framebuffer as it was before the
draw; each row reads only its own row of the framebuffer and the rows
it covers are pairwise distinct for at most 32 rows. -/
theorem foldl_drawOffset_vf (mem : Nat → Nat) (i x0 : Nat) (hx0 : x0 < 64) :
    ∀ (os : List Nat) (st : DrawSt), st.yc < 32 → os.length ≤ 32 →
      (os.foldl (drawOffset mem i x0) st).vf
        = if sprHit mem i x0 os st.yc st.fb then 1 else st.vf := by
  intro os
  induction os with
  | nil => intro st _ _; simp [sprHit]
  | cons o os ih =>
    intro st hyc hlen
    have hlen' : os.length ≤ 31 := by simp at hlen; omega
    have hyc1 : (drawOffset mem i x0 st o).yc = (st.yc + 1) % 32 := by
      simp only [drawOffset, drawRow, foldl_drawBit_yc]
    have hvf1 : (drawOffset mem i x0 st o).vf
        = if rowHit (mem ((i + o) % 65536)) (List.range 8).reverse x0 st.yc
            st.fb then 1 else st.vf := by
      simp only [drawOffset, drawRow]
      rw [foldl_drawBit_vf _ _ _ hx0 (by simp)]
    rw [List.foldl_cons,
      ih _ (by rw [hyc1]; exact Nat.mod_lt _ (by omega)) (by omega)]
    have hcong : sprHit mem i x0 os ((st.yc + 1) % 32)
          (drawOffset mem i x0 st o).fb
        = sprHit mem i x0 os ((st.yc + 1) % 32) st.fb := by
      refine sprHit_congr mem i x0 os _ _ _ (Nat.mod_lt _ (by omega)) ?_
      intro cx m hm
      have hfb : (drawOffset mem i x0 st o).fb cx (((st.yc + 1) % 32 + m) % 32)
          = Bool.xor (st.fb cx (((st.yc + 1) % 32 + m) % 32))
              (rowMask (mem ((i + o) % 65536)) (List.range 8).reverse x0 st.yc
                cx (((st.yc + 1) % 32 + m) % 32)) := by
        simp only [drawOffset, drawRow, foldl_drawBit_fb]
      have hne : ((st.yc + 1) % 32 + m) % 32 ≠ st.yc := by omega
      rw [hfb, rowMask_ne _ _ _ _ _ _ hne, Bool.xor_false]
    rw [hyc1, hcong, hvf1, sprHit]
    cases hh : rowHit (mem ((i + o) % 65536)) (List.range 8).reverse x0 st.yc
        st.fb <;>
      cases ht : sprHit mem i x0 os ((st.yc + 1) % 32) st.fb <;> simp [hh, ht]

/-- Helper: closed form of the row mask over the reversed bit range
0..8: pixel (cx, cy) receives bit `7 - k` of the byte when `cx` is the
k-th column of the row window. -/
theorem rowMask_rev (byte : Nat) :
    ∀ (m x0 yc cx cy : Nat), m ≤ 64 → x0 < 64 →
      rowMask byte (List.range m).reverse x0 yc cx cy
        = decide (cy = yc ∧ ∃ k, k < m ∧ cx = (x0 + k) % 64 ∧
            (byte >>> (m - 1 - k)) &&& 1 ≠ 0) := by
  intro m
  induction m with
  | zero => intro x0 yc cx cy _ _; simp [rowMask]
  | succ m ih =>
    intro x0 yc cx cy hm hx0
    have hrev : (List.range (m + 1)).reverse = m :: (List.range m).reverse := by
      rw [List.range_succ, List.reverse_append]
      rfl
    rw [hrev, rowMask,
      ih ((x0 + 1) % 64) yc cx cy (by omega) (Nat.mod_lt _ (by omega)),
      ite_bne_eq_decide]
    simp only [Nat.mod_add_mod]
    refine xor_decide_merge ?_ ?_
    · rintro ⟨⟨⟨hcx, _⟩, _⟩, ⟨_, k, hk, hcxk, _⟩⟩
      subst hcx
      omega
    · constructor
      · rintro (⟨⟨hcx, hcy⟩, hbit⟩ | ⟨hcy, k, hk, hcxk, hbit⟩)
        · refine ⟨hcy, 0, by omega, ?_, by simpa using hbit⟩
          rw [Nat.add_zero, Nat.mod_eq_of_lt hx0]
          exact hcx
        · refine ⟨hcy, k + 1, by omega, ?_, ?_⟩
          · have harg : x0 + 1 + k = x0 + (k + 1) := by omega
            rw [← harg]
            exact hcxk
          · have hbits : m + 1 - 1 - (k + 1) = m - 1 - k := by omega
            rw [hbits]
            exact hbit
      · rintro ⟨hcy, k, hk, hcxk, hbit⟩
        cases k with
        | zero =>
          left
          refine ⟨⟨?_, hcy⟩, by simpa using hbit⟩
          rw [Nat.add_zero, Nat.mod_eq_of_lt hx0] at hcxk
          exact hcxk
        | succ k =>
          right
          refine ⟨hcy, k, by omega, ?_, ?_⟩
          · have harg : x0 + 1 + k = x0 + (k + 1) := by omega
            rw [harg]
            exact hcxk
          · have hbits : m - 1 - k = m + 1 - 1 - (k + 1) := by omega
            rw [hbits]
            exact hbit

/-- Helper: closed form of the row collision test over the reversed bit
range. -/
theorem rowHit_rev (byte : Nat) :
    ∀ (m x0 yc : Nat) (fb : Fb), x0 < 64 →
      rowHit byte (List.range m).reverse x0 yc fb
        = decide (∃ k, k < m ∧ fb ((x0 + k) % 64) yc = true ∧
            (byte >>> (m - 1 - k)) &&& 1 ≠ 0) := by
  intro m
  induction m with
  | zero => intro x0 yc fb _; simp [rowHit]
  | succ m ih =>
    intro x0 yc fb hx0
    have hrev : (List.range (m + 1)).reverse = m :: (List.range m).reverse := by
      rw [List.range_succ, List.reverse_append]
      rfl
    rw [hrev, rowHit, ih ((x0 + 1) % 64) yc fb (Nat.mod_lt _ (by omega)),
      and_bne_eq_decide]
    simp only [Nat.mod_add_mod]
    refine or_decide_merge ?_
    constructor
    · rintro (⟨hfb, hbit⟩ | ⟨k, hk, hfbk, hbit⟩)
      · refine ⟨0, by omega, ?_, by simpa using hbit⟩
        rw [Nat.add_zero, Nat.mod_eq_of_lt hx0]
        exact hfb
      · refine ⟨k + 1, by omega, ?_, ?_⟩
        · have harg : x0 + 1 + k = x0 + (k + 1) := by omega
          rw [← harg]
          exact hfbk
        · have hbits : m + 1 - 1 - (k + 1) = m - 1 - k := by omega
          rw [hbits]
          exact hbit
    · rintro ⟨k, hk, hfbk, hbit⟩
      cases k with
      | zero =>
        left
        refine ⟨?_, by simpa using hbit⟩
        rw [Nat.add_zero, Nat.mod_eq_of_lt hx0] at hfbk
        exact hfbk
      | succ k =>
        right
        refine ⟨k, by omega, ?_, ?_⟩
        · have harg : x0 + 1 + k = x0 + (k + 1) := by omega
          rw [harg]
          exact hfbk
        · have hbits : m - 1 - k = m + 1 - 1 - (k + 1) := by omega
          rw [hbits]
          exact hbit

/-- Helper: closed form of the sprite mask over rows 0..n: pixel
(cx, cy) receives bit `7 - k` of the sprite byte at `I + o` exactly
when (cx, cy) is the k-th column of the o-th row window; rows are
pairwise distinct for n at most 32. -/
theorem sprMask_range (mem : Nat → Nat) (i x0 y0 : Nat) (hx0 : x0 < 64)
    (hy0 : y0 < 32) :
    ∀ (n : Nat), n ≤ 32 → ∀ (cx cy : Nat),
      sprMask mem i x0 (List.range n) y0 cx cy
        = decide (∃ o, o < n ∧ ∃ k, k < 8 ∧ cy = (y0 + o) % 32 ∧
            cx = (x0 + k) % 64 ∧
            (mem ((i + o) % 65536) >>> (7 - k)) &&& 1 ≠ 0) := by
  intro n
  induction n with
  | zero => intro _ cx cy; simp [sprMask]
  | succ n ih =>
    intro hn cx cy
    rw [List.range_succ, sprMask_append mem i x0 _ _ _ cx cy hy0,
      ih (by omega) cx cy]
    have hone : sprMask mem i x0 [n] ((y0 + (List.range n).length) % 32) cx cy
        = decide (cy = (y0 + n) % 32 ∧ ∃ k, k < 8 ∧ cx = (x0 + k) % 64 ∧
            (mem ((i + n) % 65536) >>> (7 - k)) &&& 1 ≠ 0) := by
      rw [sprMask, sprMask, Bool.xor_false,
        rowMask_rev _ 8 x0 _ cx cy (by omega) hx0]
      simp [List.length_range]
    rw [hone]
    refine xor_decide_merge ?_ ?_
    · rintro ⟨⟨o, ho, k, hk, hcy, _⟩, ⟨hcy2, _⟩⟩
      rw [hcy] at hcy2
      omega
    · constructor
      · rintro (⟨o, ho, k, hk, hcy, hcx, hbit⟩ | ⟨hcy, k, hk, hcx, hbit⟩)
        · exact ⟨o, by omega, k, hk, hcy, hcx, hbit⟩
        · exact ⟨n, by omega, k, hk, hcy, hcx, hbit⟩
      · rintro ⟨o, ho, k, hk, hcy, hcx, hbit⟩
        by_cases hon : o = n
        · subst hon
          exact Or.inr ⟨hcy, k, hk, hcx, hbit⟩
        · exact Or.inl ⟨o, by omega, k, hk, hcy, hcx, hbit⟩

/-- Helper: closed form of the sprite collision test over rows 0..n. -/
theorem sprHit_range (mem : Nat → Nat) (i x0 y0 : Nat) (hx0 : x0 < 64)
    (hy0 : y0 < 32) :
    ∀ (n : Nat) (fb : Fb),
      sprHit mem i x0 (List.range n) y0 fb
        = decide (∃ o, o < n ∧ ∃ k, k < 8 ∧
            fb ((x0 + k) % 64) ((y0 + o) % 32) = true ∧
            (mem ((i + o) % 65536) >>> (7 - k)) &&& 1 ≠ 0) := by
  intro n
  induction n with
  | zero => intro fb; simp [sprHit]
  | succ n ih =>
    intro fb
    rw [List.range_succ, sprHit_append mem i x0 _ _ _ fb hy0, ih fb]
    have hone : sprHit mem i x0 [n] ((y0 + (List.range n).length) % 32) fb
        = decide (∃ k, k < 8 ∧ fb ((x0 + k) % 64) ((y0 + n) % 32) = true ∧
            (mem ((i + n) % 65536) >>> (7 - k)) &&& 1 ≠ 0) := by
      rw [sprHit, sprHit, Bool.or_false, rowHit_rev _ 8 x0 _ fb hx0]
      simp [List.length_range]
    rw [hone]
    refine or_decide_merge ?_
    constructor
    · rintro (⟨o, ho, k, hk, hfb, hbit⟩ | ⟨k, hk, hfb, hbit⟩)
      · exact ⟨o, by omega, k, hk, hfb, hbit⟩
      · exact ⟨n, by omega, k, hk, hfb, hbit⟩
    · rintro ⟨o, ho, k, hk, hfb, hbit⟩
      by_cases hon : o = n
      · subst hon
        exact Or.inr ⟨k, hk, hfb, hbit⟩
      · exact Or.inl ⟨o, by omega, k, hk, hfb, hbit⟩

/-- Helper: pointwise effect of one draw call on the framebuffer. -/
theorem draw_fb (s : ChipContext) (x y n : Nat) (cx cy : Nat) :
    (draw s x y n).framebuffer cx cy
      = Bool.xor (s.framebuffer cx cy)
          (sprMask s.memory s.i (s.v x % 64) (List.range n) (s.v y % 32)
            cx cy) := by
  simp only [draw]
  rw [foldl_drawOffset_fb]

/-- Helper: effect of one draw call on the collision flag. -/
theorem draw_vf (s : ChipContext) (x y n : Nat) (hn : n ≤ 32) :
    (draw s x y n).v 15
      = if sprHit s.memory s.i (s.v x % 64) (List.range n) (s.v y % 32)
          s.framebuffer then 1 else 0 := by
  simp only [draw]
  rw [Function.update_same,
    foldl_drawOffset_vf _ _ _ (Nat.mod_lt _ (by omega)) _ _
      (Nat.mod_lt _ (by omega)) (by simpa using hn)]

/-- C3: for a sprite height `n` (a 4-bit field, so at most 15), if the
coordinate registers still hold their old values after the first draw
(the claim requires identical I, memory, Vx and Vy, and `draw` never
touches I or memory), then drawing twice restores the framebuffer
exactly; one draw XORs onto pixel (cx, cy) the sprite bit whose row
window and column window cover it, reading row `o` at `I + o` and
placing bit `7 - k` at column `(Vx mod 64 + k) mod 64` of row
`(Vy mod 32 + o) mod 32`; and the collision flag is set to 1 exactly
when some previously set pixel coincides with an incoming set sprite
bit, else 0. -/
theorem C3_draw (s : ChipContext) (x y n : Nat) (hn : n ≤ 15)
    (hVx : (draw s x y n).v x = s.v x) (hVy : (draw s x y n).v y = s.v y) :
    (draw (draw s x y n) x y n).framebuffer = s.framebuffer ∧
    (∀ cx cy, (draw s x y n).framebuffer cx cy
      = Bool.xor (s.framebuffer cx cy)
          (decide (∃ o, o < n ∧ ∃ k, k < 8 ∧
            cy = (s.v y % 32 + o) % 32 ∧ cx = (s.v x % 64 + k) % 64 ∧
            (s.memory ((s.i + o) % 65536) >>> (7 - k)) &&& 1 ≠ 0))) ∧
    ((draw s x y n).v 15
      = if (∃ o, o < n ∧ ∃ k, k < 8 ∧
            s.framebuffer ((s.v x % 64 + k) % 64) ((s.v y % 32 + o) % 32)
              = true ∧
            (s.memory ((s.i + o) % 65536) >>> (7 - k)) &&& 1 ≠ 0)
        then 1 else 0) := by
  have hx0 : s.v x % 64 < 64 := Nat.mod_lt _ (by omega)
  have hy0 : s.v y % 32 < 32 := Nat.mod_lt _ (by omega)
  refine ⟨?_, ?_, ?_⟩
  · funext cx cy
    rw [draw_fb, show (draw s x y n).memory = s.memory from rfl,
      show (draw s x y n).i = s.i from rfl, hVx, hVy, draw_fb,
      Bool.xor_assoc, Bool.xor_self, Bool.xor_false]
  · intro cx cy
    rw [draw_fb, sprMask_range s.memory s.i _ _ hx0 hy0 n (by omega) cx cy]
  · rw [draw_vf s x y n (by omega),
      sprHit_range s.memory s.i _ _ hx0 hy0 n s.framebuffer]
    by_cases hP : (∃ o, o < n ∧ ∃ k, k < 8 ∧
        s.framebuffer ((s.v x % 64 + k) % 64) ((s.v y % 32 + o) % 32) = true ∧
        (s.memory ((s.i + o) % 65536) >>> (7 - k)) &&& 1 ≠ 0) <;>
      simp [hP]

/-- C3 (witness): the theorem applied to the state with the one-row
sprite 0xF0 at `I = 0x300`, coordinates (3, 5) from `v[0]`, `v[1]`, and
one pixel already set at (3, 5); the double draw restores the
framebuffer and the single draw reports the collision. -/
theorem C3_witness :
    (1 : Nat) ≤ 15 ∧
    (draw csDraw 0 1 1).v 0 = csDraw.v 0 ∧
    (draw csDraw 0 1 1).v 1 = csDraw.v 1 ∧
    (draw csDraw 0 1 1).v 15 = 1 ∧
    (draw (draw csDraw 0 1 1) 0 1 1).framebuffer = csDraw.framebuffer :=
  ⟨by decide, by decide, by decide, by decide,
    (C3_draw csDraw 0 1 1 (by decide) (by decide) (by decide)).1⟩

/-- C6 (counterexample): the reachable program `V0 = 1; I = 0xFFF;
I += V0` leaves `I = 0x1000`, outside the valid address range
0x000-0xFFF, so the I-relative addresses used by Fx1E (and then by
Fx33, Fx55, Fx65, Dxyn) are not masked or wrapped to the valid range;
a subsequent memory access through `I` indexes the 4096-byte array out
of bounds. -/
theorem C6_counterexample :
    resultI (runSteps 0 3 (.ok csOob)) = some 0x1000 ∧ 0xFFF < 0x1000 := by
  constructor
  · rfl
  · decide

/-- C6 (amended): only the addresses taken directly from opcode fields
are bounded: the 12-bit `nnn` field is always below 4096, so the
targets installed by 1nnn and Annn are in range, and the font address
of Fx29 is at most 0x54B for byte-valued registers; the I-relative
addresses used by Fx1E, Fx33, Fx55, Fx65 and Dxyn are not masked and
can leave the valid range, as the counterexample shows. -/
theorem C6_masked_addresses (s : ChipContext) (op x nnn : Nat)
    (h1 : nnn < 4096) (h2 : s.v x < 256) :
    opNNN op < 4096 ∧
    (jump s nnn).pc < 4096 ∧
    (set_index s nnn).i < 4096 ∧
    (load_f_vx s x).i < 4096 := by
  refine ⟨?_, h1, h1, ?_⟩
  · exact Nat.lt_of_le_of_lt Nat.and_le_right (by norm_num)
  · simp only [load_f_vx]
    omega

/-- C6 (witness): the amended theorem applied to the zero state. -/
theorem C6_witness :
    opNNN 0x2345 < 4096 ∧
    (jump zeroCtx 0x345).pc < 4096 ∧
    (set_index zeroCtx 0x345).i < 4096 ∧
    (load_f_vx zeroCtx 0).i < 4096 :=
  C6_masked_addresses zeroCtx 0x2345 0 0x345 (by decide) (by decide)

/-- C4: executing CALL and then RET restores the program counter to the
address immediately after the CALL (the fetch pre-increments the
program counter by 2 before `call_sbr` pushes it); from an empty stack,
16 nested calls succeed and the 17th fails with the stack bounds panic
instead of silently continuing. -/
theorem C4_call_ret (r : Nat) (s : ChipContext)
    (h1 : s.memory s.pc = 0x23) (h2 : s.memory ((s.pc + 1) % 65536) = 0x00)
    (h3 : s.memory 0x300 = 0x00) (h4 : s.memory 0x301 = 0xEE)
    (h5 : s.sp < 16) (h6 : s.pc + 2 < 65536) :
    resultPc (runSteps r 2 (.ok s)) = some (s.pc + 2) ∧
    (runSteps 0 16 (.ok csCall)).isOk = true ∧
    (runSteps 0 17 (.ok csCall)).isStackPanic = true := by
  refine ⟨?_, by decide, by decide⟩
  have hpc : (s.pc + 2) % 65536 = s.pc + 2 := Nat.mod_eq_of_lt h6
  have hop : fetchOp s = 0x2300 := by
    rw [fetchOp, h1, h2]
    decide
  have hdec : decode 0x2300 = some (.call 0x300) := by decide
  have step1 : step r s = .ok { s with
      stack := Function.update s.stack s.sp (s.pc + 2),
      sp := s.sp + 1, pc := 0x300 } := by
    simp only [step, hop, hdec, execInstr, call_sbr, hpc]
    rw [if_neg (by omega)]
  have hop2 : fetchOp { s with
      stack := Function.update s.stack s.sp (s.pc + 2),
      sp := s.sp + 1, pc := 0x300 } = 0xEE := by
    simp [fetchOp, h3, h4]
  have hdec2 : decode 0xEE = some .ret := by decide
  rw [show runSteps r 2 (.ok s) = runSteps r 1 (step r s) from rfl, step1,
    show ∀ t, runSteps r 1 (.ok t) = step r t from fun t => rfl]
  simp only [step, hop2, hdec2, execInstr, return_sbr]
  rw [if_neg (by omega), if_neg (by simp; omega)]
  simp [resultPc, Function.update_same]

/-- C4 (witness): the theorem applied to the state with `CALL 0x300` at
0x200 and `RET` at 0x300. -/
theorem C4_witness :
    resultPc (runSteps 0 2 (.ok csCallRet)) = some (csCallRet.pc + 2) ∧
    (runSteps 0 16 (.ok csCall)).isOk = true ∧
    (runSteps 0 17 (.ok csCall)).isStackPanic = true :=
  C4_call_ret 0 csCallRet (by decide) (by decide) (by decide) (by decide)
    (by decide) (by decide)

/-- C5 (counterexample): the unmatched opcode 0xE000 executed at two
different program counters produces the same failure value, carrying
only the opcode: the program counter cannot be recovered from it, and
the failure is the panic in the execution loop, not an error value
returned to a caller. -/
theorem C5_counterexample :
    step 0 csBadOpA = .invalidOpcode 0xE000 ∧
    step 0 csBadOpB = .invalidOpcode 0xE000 ∧
    csBadOpA.pc ≠ csBadOpB.pc :=
  ⟨rfl, rfl, by decide⟩

/-- C5 (amended): decoding is a function that yields at most one
instruction variant, and a cycle aborts with the invalid-opcode panic
exactly when no decode case matches the fetched opcode; the panic value
carries the opcode (and only the opcode), and a failed cycle is never
silently continued. -/
theorem C5_decode_panic (rand : Nat) (s : ChipContext) :
    (step rand s = .invalidOpcode (fetchOp s)) ↔ decode (fetchOp s) = none := by
  simp only [step]
  cases hdec : decode (fetchOp s) with
  | none => simp
  | some inst =>
    cases hex : execInstr rand inst { s with pc := (s.pc + 2) % 65536 } with
    | none => simp [hex]
    | some s2 => simp [hex]

/-- C5 (witness): the amended theorem applied to the state fetching the
unmatched opcode 0xE000 at `pc = 0x400`. -/
theorem C5_witness :
    (step 0 csBadOpB = .invalidOpcode (fetchOp csBadOpB)) ↔
      decode (fetchOp csBadOpB) = none :=
  C5_decode_panic 0 csBadOpB

/-- C9: a successfully executed instruction other than Dxyn and 00E0
leaves the framebuffer unchanged, and executing 00E0 leaves every pixel
of the 64 x 32 grid false. -/
theorem C9_framebuffer (rand : Nat) (s s' : ChipContext) (inst : Instr)
    (hdec : decode (fetchOp s) = some inst)
    (hstep : step rand s = .ok s') :
    ((∀ x y n, inst ≠ .drw x y n) → inst ≠ .cls →
      ∀ cx cy, s'.framebuffer cx cy = s.framebuffer cx cy) ∧
    (inst = .cls → ∀ cx cy, cx < 64 → cy < 32 →
      s'.framebuffer cx cy = false) := by
  have hs1 : execInstr rand inst { s with pc := (s.pc + 2) % 65536 } = some s' := by
    simp only [step, hdec] at hstep
    cases hex : execInstr rand inst { s with pc := (s.pc + 2) % 65536 } with
    | none => rw [hex] at hstep; cases hstep
    | some s2 => rw [hex] at hstep; cases hstep; rfl
  constructor
  · intro hnd hnc cx cy
    cases inst
    case drw x y n => exact absurd rfl (hnd x y n)
    case cls => exact absurd rfl hnc
    all_goals
      simp only [execInstr, return_sbr, call_sbr, skip_if, skip_diff,
        skip_equals, sne, skip_key, skip_not_key, load_key] at hs1
    all_goals
      first
        | (cases hs1; rfl)
        | (split_ifs at hs1 <;> (cases hs1; rfl))
        | (split at hs1 <;> (cases hs1; rfl))
  · intro hcls cx cy _ _
    subst hcls
    simp only [execInstr] at hs1
    cases hs1
    rfl

/-- C9 (witness): the theorem applied to the zero state, whose next
opcode 0x0000 decodes to the no-op arm. -/
theorem C9_witness :
    decode (fetchOp zeroCtx) = some Instr.nop ∧
    ({ zeroCtx with pc := 0x202 } : ChipContext).framebuffer 3 7 =
      zeroCtx.framebuffer 3 7 :=
  ⟨by decide,
    (C9_framebuffer 0 zeroCtx { zeroCtx with pc := 0x202 } Instr.nop
        (by decide) rfl).1
      (fun x y n h => Instr.noConfusion h) (fun h => Instr.noConfusion h) 3 7⟩

/-- C7 (witness): the amended theorem applied at `x = 0` on the state
with `v[0] = 0`. -/
theorem C7_witness :
    (shr csShr 0 4).v 15 = csShr.v 0 &&& 1 ∧
    (shr csShr 0 4).v 0 = csShr.v 0 >>> 1 ∧
    (shl csShr 0 4).v 15 = (csShr.v 0 &&& 0x80) >>> 7 ∧
    (shl csShr 0 4).v 0 = (csShr.v 0 <<< 1) % 256 ∧
    shr csShr 0 4 = shr csShr 0 9 ∧
    shl csShr 0 4 = shl csShr 0 9 :=
  C7_shr_shl csShr 0 4 9 (by decide)

end Chip8
